import Mathlib

/-!
Verification of the `git-wt-detach` core.

Shallow embedding of the worktree-list parser (`worktree.go`) and the
detach/revert engine (`detach.go`) of the `git-wt-detach` repository,
together with proofs of the specified properties.

The external git collaborator (`git.go`) is modelled by an explicit
`Repo` state: the textual answers git would give to the read-only
queries, the success/failure of each mutating command, and the natural
state transition of each successful mutation (creating a branch adds it
to the ref list, checkout rewrites the record of the affected worktree,
deleting a branch removes it from the ref list).
-/

set_option autoImplicit false

namespace WtDetach

/-- A git worktree record, from `worktree.go`: `Path` and `Branch`
(empty string when the worktree is on a detached HEAD). -/
structure Worktree where
  Path : String
  Branch : String
  deriving Repr, DecidableEq

/-- First `n` characters of a string, as a string. -/
def strTake (s : String) (n : Nat) : String :=
  ⟨s.data.take n⟩

/-- The string with its first `n` characters removed.  Applied after a
prefix test of an `n`-character ASCII literal, this is exactly Go's
`strings.TrimPrefix`. -/
def strDrop (s : String) (n : Nat) : String :=
  ⟨s.data.drop n⟩

/-- Go's `dropCR` from `bufio.ScanLines`: remove one trailing `'\r'`. -/
def dropFinalCR (cs : List Char) : List Char :=
  match cs.getLast? with
  | some '\r' => cs.dropLast
  | _ => cs

/-- Worker for `scanLines`: accumulates the current line (in reverse) and
splits at each newline; a final line without a trailing newline is still
produced, a trailing newline produces no extra empty line. -/
def scanLinesAux : List Char → List Char → List String
  | [], acc => [⟨dropFinalCR acc.reverse⟩]
  | c :: rest, acc =>
      if c = '\n' then
        String.mk (dropFinalCR acc.reverse) ::
          (if rest.isEmpty then [] else scanLinesAux rest [])
      else
        scanLinesAux rest (c :: acc)

/-- The line splitting performed by `bufio.Scanner` with `ScanLines` in
`ParseWorktreeList`: no token for empty input, split at `'\n'`, drop one
trailing `'\r'` per line, and no empty final token for input ending in a
newline. -/
def scanLines (s : String) : List String :=
  if s.data.isEmpty then [] else scanLinesAux s.data []

/-- The loop body of `ParseWorktreeList` over the scanned lines: `cur` is
the open record (`current` in the Go code, `none` for `nil`), `acc` the
records emitted so far.  A `worktree ` line opens a fresh record, a
`branch refs/heads/` line sets the open record's branch, a blank line
appends and closes the open record, any other line is ignored; an open
record at end of input is appended. -/
def parseWorktreeLoop : List String → Option Worktree → List Worktree → List Worktree
  | [], cur, acc =>
      match cur with
      | some w => acc ++ [w]
      | none => acc
  | line :: rest, cur, acc =>
      if strTake line 9 = "worktree " then
        parseWorktreeLoop rest (some ⟨strDrop line 9, ""⟩) acc
      else if strTake line 18 = "branch refs/heads/" then
        match cur with
        | some w => parseWorktreeLoop rest (some { w with Branch := strDrop line 18 }) acc
        | none => parseWorktreeLoop rest none acc
      else if line = "" then
        match cur with
        | some w => parseWorktreeLoop rest none (acc ++ [w])
        | none => parseWorktreeLoop rest none acc
      else
        parseWorktreeLoop rest cur acc

/-- `ParseWorktreeList` from `worktree.go`: parse the output of
`git worktree list --porcelain`. -/
def ParseWorktreeList (output : String) : List Worktree :=
  parseWorktreeLoop (scanLines output) none []

/-- `FindWorktreeByBranch` from `worktree.go`: first worktree in listing
order whose branch is `branch` and whose path is not `excludePath`. -/
def FindWorktreeByBranch (worktrees : List Worktree) (branch excludePath : String) :
    Option Worktree :=
  worktrees.find? (fun wt => wt.Branch == branch && wt.Path != excludePath)

/-- `DefaultSuffix` from `detach.go`. -/
def DefaultSuffix : String := "__wt_detach"

/-- `Options` from `detach.go`. -/
structure Options where
  DryRun : Bool
  Revert : Bool
  Force : Bool
  Yes : Bool
  deriving Repr, DecidableEq

/-- `Result` from `detach.go`. -/
structure Result where
  Success : Bool
  Message : String
  WorktreePath : String
  TempBranch : String
  deriving Repr, DecidableEq

/-- `Detacher` from `detach.go`.  The `git` field (the command runner) is
not part of the value: the collaborator is modelled by the explicit
`Repo` state passed to each operation. -/
structure Detacher where
  suffix : String
  deriving Repr, DecidableEq

/-- `NewDetacher` from `detach.go`. -/
def NewDetacher : Detacher := ⟨DefaultSuffix⟩

/-- `SetSuffix` from `detach.go`: only a non-empty argument replaces the
suffix. -/
def Detacher.SetSuffix (d : Detacher) (suffix : String) : Detacher :=
  if suffix ≠ "" then { d with suffix := suffix } else d

/-- `GetSuffix` from `detach.go`. -/
def Detacher.GetSuffix (d : Detacher) : String :=
  d.suffix

/-- `LoadSuffixFromConfig` from `detach.go`: the argument is the outcome
of `git config --get wt-detach.suffix` (`none` for an error, otherwise
the trimmed output); the suffix is replaced only when the read succeeds
with a non-empty value. -/
def Detacher.LoadSuffixFromConfig (d : Detacher) (configValue : Option String) : Detacher :=
  match configValue with
  | some suffix => if suffix ≠ "" then { d with suffix := suffix } else d
  | none => d

/-- `TempBranchName` from `detach.go`. -/
def Detacher.TempBranchName (d : Detacher) (branch : String) : String :=
  branch ++ d.suffix

/-- The state of the external git collaborator, as observed through the
commands `detach.go` issues.  `branches` are the existing local branch
refs, `worktrees` the records git's porcelain worktree listing denotes,
`currentPath` the output of `rev-parse --show-toplevel`, and `status`
the outcome of `status --porcelain` per worktree path (`none` for a
command error).  The remaining fields give the success/failure of each
fallible command the engine issues. -/
structure Repo where
  branches : List String
  worktrees : List Worktree
  currentPath : String
  status : String → Option String
  toplevelFails : Bool
  listFails : Bool
  createFails : String → String → Bool
  checkoutFails : String → String → Bool
  deleteFails : String → Bool

/-- A mutating git command issued by the engine (in issue order,
whether or not it succeeds). -/
inductive Cmd where
  | createBranch (branch : String) (worktreePath : String)
  | checkout (worktreePath : String) (branch : String)
  | deleteBranch (branch : String)
  deriving Repr, DecidableEq

/-- `BranchExists` from `detach.go`: `rev-parse --verify refs/heads/<b>`
succeeds exactly for existing branch refs. -/
def BranchExists (r : Repo) (branch : String) : Bool :=
  r.branches.contains branch

/-- `GetCurrentWorktreePath` from `detach.go`.  The wrapped collaborator
error text is elided: only the deterministic part of the message is
modelled. -/
def GetCurrentWorktreePath (r : Repo) : Except String String :=
  if r.toplevelFails then .error "failed to get current worktree path"
  else .ok r.currentPath

/-- `ListWorktrees` from `detach.go`: listing failure propagates as an
error, otherwise the porcelain records. -/
def ListWorktrees (r : Repo) : Except String (List Worktree) :=
  if r.listFails then .error "failed to list worktrees"
  else .ok r.worktrees

/-- `FindWorktreeForBranch` from `detach.go`: resolves the current
worktree path and then excludes it from the search. -/
def FindWorktreeForBranch (r : Repo) (branch : String) : Except String (Option Worktree) :=
  match GetCurrentWorktreePath r with
  | .error e => .error e
  | .ok currentPath =>
    match ListWorktrees r with
    | .error e => .error e
    | .ok worktrees => .ok (FindWorktreeByBranch worktrees branch currentPath)

/-- `HasUncommittedChanges` from `detach.go`: a `status --porcelain`
error counts as "has changes" (fail safe), otherwise non-empty output. -/
def HasUncommittedChanges (r : Repo) (worktreePath : String) : Bool :=
  match r.status worktreePath with
  | none => true
  | some output => output != ""

/-- `CreateBranch` from `detach.go`: on success the branch is added to
the ref list. -/
def CreateBranch (r : Repo) (branch worktreePath : String) : Except String Repo :=
  if r.createFails branch worktreePath then
    .error ("failed to create branch '" ++ branch ++ "'")
  else
    .ok { r with branches := r.branches ++ [branch] }

/-- `DeleteBranch` from `detach.go`: on success the branch is removed
from the ref list. -/
def DeleteBranch (r : Repo) (branch : String) : Except String Repo :=
  if r.deleteFails branch then
    .error ("failed to delete branch '" ++ branch ++ "'")
  else
    .ok { r with branches := r.branches.filter (fun b => b ≠ branch) }

/-- `Checkout` from `detach.go`: on success the worktree record at
`worktreePath` is now on `branch`. -/
def Checkout (r : Repo) (worktreePath branch : String) : Except String Repo :=
  if r.checkoutFails worktreePath branch then
    .error ("failed to checkout '" ++ branch ++ "' in '" ++ worktreePath ++ "'")
  else
    .ok { r with worktrees :=
      r.worktrees.map (fun wt => if wt.Path = worktreePath then { wt with Branch := branch } else wt) }

/-- The observable outcome of one engine call: the Go return value
(`(*Result, error)` as an `Except`), the collaborator state afterwards,
and the mutating commands issued along the way. -/
structure ExecOutcome where
  result : Except String Result
  repo : Repo
  trace : List Cmd

/-- `Detach` from `detach.go`, line for line: existence check, lookup
excluding the current worktree, uncommitted-changes gate, temp-branch
conflict gate, dry-run early return, then create + checkout with a
best-effort rollback delete (its own outcome ignored) when the checkout
fails after a successful create. -/
def Detacher.Detach (d : Detacher) (r : Repo) (branch : String) (opts : Options) :
    ExecOutcome :=
  if !BranchExists r branch then
    ⟨.error ("branch '" ++ branch ++ "' does not exist"), r, []⟩
  else
    let tmpBranch := d.TempBranchName branch
    match FindWorktreeForBranch r branch with
    | .error e => ⟨.error e, r, []⟩
    | .ok none =>
        ⟨.ok ⟨true, "Branch '" ++ branch ++ "' is not checked out in any other worktree", "", ""⟩,
          r, []⟩
    | .ok (some wt) =>
        if HasUncommittedChanges r wt.Path && !opts.Force then
          ⟨.error ("uncommitted changes found in worktree: " ++ wt.Path ++
            "\n  Use --force to override"), r, []⟩
        else if BranchExists r tmpBranch then
          ⟨.error ("temporary branch '" ++ tmpBranch ++
            "' already exists. Use --revert first or delete the branch manually"), r, []⟩
        else if opts.DryRun then
          ⟨.ok ⟨true, "dry-run", wt.Path, tmpBranch⟩, r, []⟩
        else
          match CreateBranch r tmpBranch wt.Path with
          | .error e => ⟨.error e, r, [.createBranch tmpBranch wt.Path]⟩
          | .ok r1 =>
            match Checkout r1 wt.Path tmpBranch with
            | .error e =>
                let r2 := match DeleteBranch r1 tmpBranch with
                  | .ok r2 => r2
                  | .error _ => r1
                ⟨.error e, r2,
                  [.createBranch tmpBranch wt.Path, .checkout wt.Path tmpBranch,
                    .deleteBranch tmpBranch]⟩
            | .ok r2 =>
                ⟨.ok ⟨true, "Branch '" ++ branch ++ "' detached successfully", wt.Path, tmpBranch⟩,
                  r2, [.createBranch tmpBranch wt.Path, .checkout wt.Path tmpBranch]⟩

/-- `Revert` from `detach.go`, line for line: both the branch and the
temp branch must exist; the lookup for the temp branch goes through
`FindWorktreeForBranch` (and therefore excludes the current worktree's
path); when the lookup yields nothing the temp branch is only deleted
(honouring dry-run); otherwise the uncommitted-changes gate, dry-run
early return, then checkout of the original branch followed by deletion
of the temp branch, with no rollback of the checkout when the delete
fails. -/
def Detacher.Revert (d : Detacher) (r : Repo) (branch : String) (opts : Options) :
    ExecOutcome :=
  if !BranchExists r branch then
    ⟨.error ("branch '" ++ branch ++ "' does not exist"), r, []⟩
  else
    let tmpBranch := d.TempBranchName branch
    if !BranchExists r tmpBranch then
      ⟨.error ("temporary branch '" ++ tmpBranch ++ "' does not exist"), r, []⟩
    else
      match FindWorktreeForBranch r tmpBranch with
      | .error e => ⟨.error e, r, []⟩
      | .ok none =>
          if opts.DryRun then
            ⟨.ok ⟨true, "dry-run: would delete branch", "", tmpBranch⟩, r, []⟩
          else
            match DeleteBranch r tmpBranch with
            | .error e => ⟨.error e, r, [.deleteBranch tmpBranch]⟩
            | .ok r1 =>
                ⟨.ok ⟨true, "Deleted temporary branch '" ++ tmpBranch ++ "'", "", tmpBranch⟩,
                  r1, [.deleteBranch tmpBranch]⟩
      | .ok (some wt) =>
          if HasUncommittedChanges r wt.Path && !opts.Force then
            ⟨.error ("uncommitted changes found in worktree: " ++ wt.Path ++
              "\n  Use --force to override"), r, []⟩
          else if opts.DryRun then
            ⟨.ok ⟨true, "dry-run", wt.Path, tmpBranch⟩, r, []⟩
          else
            match Checkout r wt.Path branch with
            | .error e => ⟨.error e, r, [.checkout wt.Path branch]⟩
            | .ok r1 =>
              match DeleteBranch r1 tmpBranch with
              | .error e => ⟨.error e, r1, [.checkout wt.Path branch, .deleteBranch tmpBranch]⟩
              | .ok r2 =>
                  ⟨.ok ⟨true, "Branch '" ++ branch ++ "' restored successfully", wt.Path, tmpBranch⟩,
                    r2, [.checkout wt.Path branch, .deleteBranch tmpBranch]⟩

/-- Modelled from the spec: `formatUncommittedError` is referenced by
the repository's own tests (`TestFormatUncommittedError`) and described
by the spec and the README ("carries path + file list, message truncates
to a `N files or more` display when the list exceeds 10 entries, never
itemizing beyond that threshold", "Use --force to override" hint), but
its definition is not among the provided source files. -/
def formatUncommittedError (worktreePath : String) (files : List String) : String :=
  if files.length > 10 then
    "uncommitted changes found in worktree: " ++ worktreePath ++ "\n  " ++
      toString files.length ++ " files or more\n  Use --force to override"
  else
    "uncommitted changes found in worktree: " ++ worktreePath ++ "\n" ++
      String.join (files.map (fun f => "  " ++ f ++ "\n")) ++ "  Use --force to override"

/-- Substring test on character lists (used to state which names a
message does or does not mention). -/
def containsSub : List Char → List Char → Bool
  | _, [] => true
  | [], _ :: _ => false
  | c :: rest, p :: ps =>
      ((c :: rest).take (p :: ps).length == p :: ps) || containsSub rest (p :: ps)

/-! ## Concrete collaborator states for scenarios and witnesses -/

/-- A baseline collaborator state for concrete scenarios: every query
and every command succeeds, every worktree is clean, and branch `b` is
checked out in the non-current worktree `/wt`. -/
def rClean : Repo where
  branches := ["main", "b"]
  worktrees := [⟨"/repo", "main"⟩, ⟨"/wt", "b"⟩]
  currentPath := "/repo"
  status := fun _ => some ""
  toplevelFails := false
  listFails := false
  createFails := fun _ _ => false
  checkoutFails := fun _ _ => false
  deleteFails := fun _ => false

/-- Default options: no dry-run, no force. -/
def oDefault : Options := ⟨false, false, false, true⟩

/-- Dry-run options. -/
def oDry : Options := ⟨true, false, false, true⟩

/-- The temp branch for `b` exists and is checked out in the current
worktree itself (`/repo`), which is also the only worktree. -/
def rTempHeld : Repo :=
  { rClean with branches := ["b", "b__wt_detach"], worktrees := [⟨"/repo", "b__wt_detach"⟩] }

/-- The worktree `/wt` holding `b` has an uncommitted file `file1.txt`. -/
def rDirty : Repo :=
  { rClean with status := fun p => if p = "/wt" then some "?? file1.txt" else some "" }

/-- Checkout of the temp branch fails; everything else succeeds. -/
def rCheckoutFail : Repo :=
  { rClean with checkoutFails := fun _ b2 => b2 == "b__wt_detach" }

/-- The temp branch for `b` exists but is checked out nowhere. -/
def rOrphan : Repo :=
  { rClean with branches := ["main", "b", "b__wt_detach"] }

/-- The temp branch for `b` exists and is checked out in the other
worktree `/wt` (the state right after a successful detach of `b`). -/
def rDetached : Repo :=
  { rClean with
      branches := ["main", "b", "b__wt_detach"]
      worktrees := [⟨"/repo", "main"⟩, ⟨"/wt", "b__wt_detach"⟩] }

/-! ## Well-formed porcelain input, for the parser specification

A "paragraph block" of porcelain-style worktree output: the `worktree `
header line, any further attribute lines (`HEAD …`, `detached`, …), and
an optional `branch refs/heads/…` line.  These definitions follow the
spec's description of the input format (they are the specification side
against which `ParseWorktreeList` is checked, not a translation of
repository code). -/

/-- One paragraph block of porcelain worktree output. -/
structure Block where
  path : String
  extras : List String
  branch : Option String

/-- The lines of a rendered block. -/
def Block.blockLines (b : Block) : List String :=
  ("worktree " ++ b.path) ::
    (b.extras ++ (match b.branch with
      | some br => ["branch refs/heads/" ++ br]
      | none => []))

/-- The worktree record a block denotes: its path, and its branch name
or `""` when the block has no `branch refs/heads/` line. -/
def Block.toWorktree (b : Block) : Worktree :=
  ⟨b.path, b.branch.getD ""⟩

/-- A line that survives the line scanner unchanged: it contains no
newline and does not end in a carriage return. -/
def LineOk (l : String) : Prop :=
  '\n' ∉ l.data ∧ l.data.getLast? ≠ some '\r'

/-- An attribute line other than the recognized ones: non-blank and
starting with neither recognized prefix, so the parser ignores it. -/
def ExtraOk (e : String) : Prop :=
  e ≠ "" ∧ strTake e 9 ≠ "worktree " ∧ strTake e 18 ≠ "branch refs/heads/"

instance (l : String) : Decidable (LineOk l) := by
  unfold LineOk
  infer_instance

instance (e : String) : Decidable (ExtraOk e) := by
  unfold ExtraOk
  infer_instance

/-- A well-formed block: every rendered line is scanner-safe and every
extra line is an ignored attribute line. -/
def Block.WellFormed (b : Block) : Prop :=
  (∀ l ∈ b.blockLines, LineOk l) ∧ ∀ e ∈ b.extras, ExtraOk e

instance (b : Block) : Decidable b.WellFormed := by
  unfold Block.WellFormed LineOk ExtraOk
  infer_instance

/-- The lines of a block list, each block terminated by a blank line
(the text ends with a trailing blank line). -/
def blocksLines (bs : List Block) : List String :=
  bs.flatMap (fun b => b.blockLines ++ [""])

/-- The lines of a block list without the final trailing blank line. -/
def blocksLinesNoTrail : List Block → List String
  | [] => []
  | [b] => b.blockLines
  | b :: bs => b.blockLines ++ ("" :: blocksLinesNoTrail bs)

/-- Join lines into a text, terminating every line with a newline. -/
def joinLines (lines : List String) : String :=
  ⟨lines.flatMap (fun l => l.data ++ ['\n'])⟩

/-- Concrete well-formed blocks, for witnesses. -/
def wBlocks : List Block :=
  [⟨"/r", ["HEAD x"], some "main"⟩, ⟨"/d", ["HEAD y", "detached"], none⟩]

/-! ## Helper lemmas -/

theorem eq_empty_of_length_eq_zero {s : String} (h : s.length = 0) : s = "" := by
  cases s with
  | mk data =>
    cases data with
    | nil => rfl
    | cons c cs => simp [String.length] at h

theorem append_ne_of_ne_empty (b s : String) (h : s ≠ "") : b ++ s ≠ b := by
  intro heq
  apply h
  apply eq_empty_of_length_eq_zero
  have hlen : (b ++ s).length = b.length + s.length := String.length_append b s
  rw [heq] at hlen
  omega

theorem strTake_append (a b : String) : strTake (a ++ b) a.length = a := by
  cases a with
  | mk da =>
    cases b with
    | mk db =>
      show String.mk (((⟨da⟩ : String) ++ ⟨db⟩).data.take da.length) = ⟨da⟩
      rw [String.data_append]
      rw [List.take_left]

theorem strDrop_append (a b : String) : strDrop (a ++ b) a.length = b := by
  cases a with
  | mk da =>
    cases b with
    | mk db =>
      show String.mk (((⟨da⟩ : String) ++ ⟨db⟩).data.drop da.length) = ⟨db⟩
      rw [String.data_append]
      rw [List.drop_left]

theorem strTake_append_of_le (a b : String) (n : Nat) (h : n ≤ a.length) :
    strTake (a ++ b) n = strTake a n := by
  cases a with
  | mk da =>
    cases b with
    | mk db =>
      show String.mk (((⟨da⟩ : String) ++ ⟨db⟩).data.take n) = String.mk (da.take n)
      rw [String.data_append]
      rw [List.take_append_of_le_length h]

theorem findWorktreeByBranch_eq_none {wts : List Worktree} {br ex : String} :
    FindWorktreeByBranch wts br ex = none ↔ ∀ w ∈ wts, w.Branch = br → w.Path = ex := by
  unfold FindWorktreeByBranch
  rw [List.find?_eq_none]
  constructor
  · intro h w hw hbr
    have := h w hw
    simp [hbr] at this
    exact this
  · intro h w hw
    simp only [Bool.and_eq_true, beq_iff_eq, bne_iff_ne, ne_eq, not_and, not_not]
    intro hbr
    exact h w hw hbr

theorem findWorktreeByBranch_eq_some {wts : List Worktree} {br ex : String} {wt : Worktree}
    (h : FindWorktreeByBranch wts br ex = some wt) :
    wt.Branch = br ∧ wt.Path ≠ ex ∧
      ∃ pre post, wts = pre ++ wt :: post ∧ ∀ w ∈ pre, w.Branch = br → w.Path = ex := by
  unfold FindWorktreeByBranch at h
  have hp := List.find?_some h
  simp only [Bool.and_eq_true, beq_iff_eq, bne_iff_ne, ne_eq] at hp
  refine ⟨hp.1, hp.2, ?_⟩
  clear hp
  induction wts with
  | nil => simp [List.find?] at h
  | cons x xs ih =>
    rw [List.find?] at h
    by_cases hx : (x.Branch == br && x.Path != ex) = true
    · rw [hx] at h
      simp only [Option.some.injEq] at h
      exact ⟨[], xs, by simp [h], by simp⟩
    · have hx2 : (x.Branch == br && x.Path != ex) = false := by
        rwa [Bool.not_eq_true] at hx
      rw [hx2] at h
      obtain ⟨pre, post, heq, hpre⟩ := ih h
      refine ⟨x :: pre, post, by simp [heq], ?_⟩
      intro w hw hbr
      rcases List.mem_cons.mp hw with rfl | hw2
      · by_contra hne
        apply hx
        simp only [Bool.and_eq_true, beq_iff_eq, bne_iff_ne, ne_eq]
        exact ⟨hbr, hne⟩
      · exact hpre w hw2 hbr

theorem mem_of_findWorktreeByBranch_eq_some {wts : List Worktree} {br ex : String}
    {wt : Worktree} (h : FindWorktreeByBranch wts br ex = some wt) : wt ∈ wts :=
  List.mem_of_find?_eq_some h

/-! ## Scanner lemmas -/

theorem dropFinalCR_of_ok {cs : List Char} (h : cs.getLast? ≠ some '\r') :
    dropFinalCR cs = cs := by
  unfold dropFinalCR
  split
  · rename_i heq
    exact absurd heq h
  · rfl

theorem scanLinesAux_append (cs rest acc : List Char) (h : '\n' ∉ cs) :
    scanLinesAux (cs ++ '\n' :: rest) acc =
      String.mk (dropFinalCR (acc.reverse ++ cs)) ::
        (if rest.isEmpty then [] else scanLinesAux rest []) := by
  induction cs generalizing acc with
  | nil =>
      show scanLinesAux ('\n' :: rest) acc = _
      simp only [scanLinesAux, List.append_nil]
      simp
  | cons c cs ih =>
      have hc : ¬c = '\n' := fun hceq => h (by simp [hceq])
      show scanLinesAux (c :: (cs ++ '\n' :: rest)) acc = _
      simp only [scanLinesAux, if_neg hc]
      rw [ih (c :: acc) (fun hmem => h (List.mem_cons_of_mem _ hmem))]
      simp

theorem joinLines_data_cons (l : String) (ls : List String) :
    (joinLines (l :: ls)).data = l.data ++ '\n' :: (joinLines ls).data := by
  simp [joinLines]

theorem scanLines_joinLines (lines : List String) (h : ∀ l ∈ lines, LineOk l) :
    scanLines (joinLines lines) = lines := by
  induction lines with
  | nil => rfl
  | cons l ls ih =>
      have hl : LineOk l := h l (List.mem_cons_self _ _)
      unfold scanLines
      rw [joinLines_data_cons]
      rw [if_neg (by simp)]
      rw [scanLinesAux_append _ _ _ hl.1]
      simp only [List.reverse_nil, List.nil_append]
      rw [dropFinalCR_of_ok hl.2]
      have htail : (if (joinLines ls).data.isEmpty then ([] : List String)
          else scanLinesAux (joinLines ls).data []) = scanLines (joinLines ls) := rfl
      rw [htail, ih (fun x hx => h x (List.mem_cons_of_mem _ hx))]

/-! ## Parser loop lemmas -/

theorem parseWorktreeLoop_worktree_line (p : String) (rest : List String)
    (cur : Option Worktree) (acc : List Worktree) :
    parseWorktreeLoop (("worktree " ++ p) :: rest) cur acc =
      parseWorktreeLoop rest (some ⟨p, ""⟩) acc := by
  have h9 : ("worktree " : String).length = 9 := rfl
  have htake : strTake ("worktree " ++ p) 9 = "worktree " := by
    rw [← h9]
    exact strTake_append _ _
  have hdrop : strDrop ("worktree " ++ p) 9 = p := by
    rw [← h9]
    exact strDrop_append _ _
  simp only [parseWorktreeLoop, if_pos htake, hdrop]

theorem parseWorktreeLoop_branch_line (br : String) (rest : List String)
    (w : Worktree) (acc : List Worktree) :
    parseWorktreeLoop (("branch refs/heads/" ++ br) :: rest) (some w) acc =
      parseWorktreeLoop rest (some { w with Branch := br }) acc := by
  have h18 : ("branch refs/heads/" : String).length = 18 := rfl
  have hno : ¬strTake ("branch refs/heads/" ++ br) 9 = "worktree " := by
    rw [strTake_append_of_le _ _ 9 (by rw [h18]; omega)]
    decide
  have htake : strTake ("branch refs/heads/" ++ br) 18 = "branch refs/heads/" := by
    rw [← h18]
    exact strTake_append _ _
  have hdrop : strDrop ("branch refs/heads/" ++ br) 18 = br := by
    rw [← h18]
    exact strDrop_append _ _
  simp only [parseWorktreeLoop, if_neg hno, if_pos htake, hdrop]

theorem parseWorktreeLoop_blank_some (rest : List String) (w : Worktree)
    (acc : List Worktree) :
    parseWorktreeLoop ("" :: rest) (some w) acc = parseWorktreeLoop rest none (acc ++ [w]) := by
  simp only [parseWorktreeLoop, if_neg (by decide : ¬strTake "" 9 = "worktree "),
    if_neg (by decide : ¬strTake "" 18 = "branch refs/heads/")]
  simp

theorem parseWorktreeLoop_extras (es rest : List String) (cur : Option Worktree)
    (acc : List Worktree) (h : ∀ e ∈ es, ExtraOk e) :
    parseWorktreeLoop (es ++ rest) cur acc = parseWorktreeLoop rest cur acc := by
  induction es generalizing cur acc with
  | nil => rfl
  | cons e es ih =>
      have he : ExtraOk e := h e (List.mem_cons_self _ _)
      show parseWorktreeLoop (e :: (es ++ rest)) cur acc = _
      simp only [parseWorktreeLoop, if_neg he.2.1, if_neg he.2.2, if_neg he.1]
      exact ih _ _ (fun x hx => h x (List.mem_cons_of_mem _ hx))

theorem parseWorktreeLoop_block (b : Block) (rest : List String) (acc : List Worktree)
    (h : ∀ e ∈ b.extras, ExtraOk e) :
    parseWorktreeLoop (b.blockLines ++ ("" :: rest)) none acc =
      parseWorktreeLoop rest none (acc ++ [b.toWorktree]) := by
  unfold Block.blockLines
  cases hbr : b.branch with
  | none =>
      simp only [List.append_nil, List.cons_append]
      rw [parseWorktreeLoop_worktree_line]
      rw [parseWorktreeLoop_extras _ _ _ _ h]
      rw [parseWorktreeLoop_blank_some]
      unfold Block.toWorktree
      rw [hbr]
      rfl
  | some br =>
      simp only [List.cons_append, List.append_assoc, List.singleton_append]
      rw [parseWorktreeLoop_worktree_line]
      rw [parseWorktreeLoop_extras _ _ _ _ h]
      rw [parseWorktreeLoop_branch_line]
      simp only [List.nil_append]
      rw [parseWorktreeLoop_blank_some]
      unfold Block.toWorktree
      rw [hbr]
      rfl

theorem parseWorktreeLoop_block_last (b : Block) (acc : List Worktree)
    (h : ∀ e ∈ b.extras, ExtraOk e) :
    parseWorktreeLoop b.blockLines none acc = acc ++ [b.toWorktree] := by
  unfold Block.blockLines
  cases hbr : b.branch with
  | none =>
      simp only [List.append_nil]
      rw [parseWorktreeLoop_worktree_line]
      have hext := parseWorktreeLoop_extras b.extras [] (some ⟨b.path, ""⟩) acc h
      rw [List.append_nil] at hext
      rw [hext]
      unfold Block.toWorktree
      rw [hbr]
      rfl
  | some br =>
      rw [parseWorktreeLoop_worktree_line]
      rw [parseWorktreeLoop_extras _ _ _ _ h]
      rw [parseWorktreeLoop_branch_line]
      unfold Block.toWorktree
      rw [hbr]
      rfl

theorem parseWorktreeLoop_append_blank (lines : List String) (cur : Option Worktree)
    (acc : List Worktree) :
    parseWorktreeLoop (lines ++ [""]) cur acc = parseWorktreeLoop lines cur acc := by
  induction lines generalizing cur acc with
  | nil =>
      cases cur with
      | none =>
          show parseWorktreeLoop [""] none acc = acc
          simp only [parseWorktreeLoop, if_neg (by decide : ¬strTake "" 9 = "worktree "),
            if_neg (by decide : ¬strTake "" 18 = "branch refs/heads/")]
          simp [parseWorktreeLoop]
      | some w =>
          show parseWorktreeLoop [""] (some w) acc = acc ++ [w]
          rw [parseWorktreeLoop_blank_some]
          rfl
  | cons l ls ih =>
      show parseWorktreeLoop (l :: (ls ++ [""])) cur acc = parseWorktreeLoop (l :: ls) cur acc
      simp only [parseWorktreeLoop]
      by_cases h1 : strTake l 9 = "worktree "
      · rw [if_pos h1, if_pos h1]
        exact ih _ _
      · rw [if_neg h1, if_neg h1]
        by_cases h2 : strTake l 18 = "branch refs/heads/"
        · rw [if_pos h2, if_pos h2]
          cases cur with
          | some w => exact ih _ _
          | none => exact ih _ _
        · rw [if_neg h2, if_neg h2]
          by_cases h3 : l = ""
          · rw [if_pos h3, if_pos h3]
            cases cur with
            | some w => exact ih _ _
            | none => exact ih _ _
          · rw [if_neg h3, if_neg h3]
            exact ih _ _

theorem parseWorktreeLoop_blocks (bs : List Block) (acc : List Worktree)
    (h : ∀ b ∈ bs, ∀ e ∈ b.extras, ExtraOk e) :
    parseWorktreeLoop (blocksLines bs) none acc = acc ++ bs.map Block.toWorktree := by
  induction bs generalizing acc with
  | nil => simp [blocksLines, parseWorktreeLoop]
  | cons b bs ih =>
      have hb : blocksLines (b :: bs) = b.blockLines ++ ("" :: blocksLines bs) := by
        simp [blocksLines]
      rw [hb, parseWorktreeLoop_block _ _ _ (h b (List.mem_cons_self _ _))]
      rw [ih _ (fun x hx e he => h x (List.mem_cons_of_mem _ hx) e he)]
      simp

theorem parseWorktreeLoop_blocksNoTrail (bs : List Block) (acc : List Worktree)
    (h : ∀ b ∈ bs, ∀ e ∈ b.extras, ExtraOk e) :
    parseWorktreeLoop (blocksLinesNoTrail bs) none acc = acc ++ bs.map Block.toWorktree := by
  induction bs generalizing acc with
  | nil => simp [blocksLinesNoTrail, parseWorktreeLoop]
  | cons b bs ih =>
      cases bs with
      | nil =>
          show parseWorktreeLoop b.blockLines none acc = _
          rw [parseWorktreeLoop_block_last _ _ (h b (List.mem_cons_self _ _))]
          simp
      | cons b2 bs2 =>
          show parseWorktreeLoop (b.blockLines ++ ("" :: blocksLinesNoTrail (b2 :: bs2)))
              none acc = _
          rw [parseWorktreeLoop_block _ _ _ (h b (List.mem_cons_self _ _))]
          rw [ih _ (fun x hx e he => h x (List.mem_cons_of_mem _ hx) e he)]
          simp

theorem lineOk_blocksLines {bs : List Block} (h : ∀ b ∈ bs, b.WellFormed) :
    ∀ l ∈ blocksLines bs, LineOk l := by
  intro l hl
  unfold blocksLines at hl
  rw [List.mem_flatMap] at hl
  obtain ⟨b, hb, hlb⟩ := hl
  rw [List.mem_append] at hlb
  rcases hlb with hlb | hlb
  · exact (h b hb).1 l hlb
  · rw [List.mem_singleton] at hlb
    subst hlb
    exact (by decide : LineOk "")

theorem lineOk_blocksLinesNoTrail {bs : List Block} (h : ∀ b ∈ bs, b.WellFormed) :
    ∀ l ∈ blocksLinesNoTrail bs, LineOk l := by
  induction bs with
  | nil => simp [blocksLinesNoTrail]
  | cons b bs ih =>
      cases bs with
      | nil =>
          intro l hl
          exact (h b (List.mem_cons_self _ _)).1 l hl
      | cons b2 bs2 =>
          intro l hl
          rw [show blocksLinesNoTrail (b :: b2 :: bs2) =
            b.blockLines ++ ("" :: blocksLinesNoTrail (b2 :: bs2)) from rfl] at hl
          rw [List.mem_append] at hl
          rcases hl with hl | hl
          · exact (h b (List.mem_cons_self _ _)).1 l hl
          · rw [List.mem_cons] at hl
            rcases hl with rfl | hl
            · exact (by decide : LineOk "")
            · exact ih (fun x hx => h x (List.mem_cons_of_mem _ hx)) l hl

theorem parseWorktreeList_render (bs : List Block) (h : ∀ b ∈ bs, b.WellFormed) :
    ParseWorktreeList (joinLines (blocksLines bs)) = bs.map Block.toWorktree := by
  unfold ParseWorktreeList
  rw [scanLines_joinLines _ (lineOk_blocksLines h)]
  rw [parseWorktreeLoop_blocks bs [] (fun b hb => (h b hb).2)]
  simp

theorem parseWorktreeList_renderNoTrail (bs : List Block) (h : ∀ b ∈ bs, b.WellFormed) :
    ParseWorktreeList (joinLines (blocksLinesNoTrail bs)) = bs.map Block.toWorktree := by
  unfold ParseWorktreeList
  rw [scanLines_joinLines _ (lineOk_blocksLinesNoTrail h)]
  rw [parseWorktreeLoop_blocksNoTrail bs [] (fun b hb => (h b hb).2)]
  simp

/-! ## Engine helper lemmas -/

theorem branchExists_iff {r : Repo} {b : String} : BranchExists r b = true ↔ b ∈ r.branches := by
  simp [BranchExists]

theorem worktree_path_injective {wts : List Worktree}
    (hnodup : (wts.map Worktree.Path).Nodup) {w1 w2 : Worktree}
    (h1 : w1 ∈ wts) (h2 : w2 ∈ wts) (hp : w1.Path = w2.Path) : w1 = w2 :=
  List.inj_on_of_nodup_map hnodup h1 h2 hp

theorem findWorktreeByBranch_after_update {wts : List Worktree} {wt : Worktree}
    {tmp cur : String}
    (hpre : ∀ w ∈ wts, w.Branch ≠ tmp)
    (hmem : wt ∈ wts)
    (hnodup : (wts.map Worktree.Path).Nodup)
    (hex : wt.Path ≠ cur) :
    FindWorktreeByBranch
        (wts.map (fun w => if w.Path = wt.Path then { w with Branch := tmp } else w)) tmp cur =
      some { wt with Branch := tmp } := by
  induction wts with
  | nil => cases hmem
  | cons w0 ws ih =>
      by_cases h0 : w0.Path = wt.Path
      · have hw0 : w0 = wt :=
          worktree_path_injective hnodup (List.mem_cons_self _ _) hmem h0
        subst hw0
        unfold FindWorktreeByBranch
        rw [List.map_cons, if_pos rfl, List.find?_cons]
        have hcond : (({ w0 with Branch := tmp } : Worktree).Branch == tmp &&
            ({ w0 with Branch := tmp } : Worktree).Path != cur) = true := by
          simp [hex]
        rw [hcond]
      · have hmem2 : wt ∈ ws := by
          rcases List.mem_cons.mp hmem with rfl | hmem2
          · exact absurd rfl h0
          · exact hmem2
        unfold FindWorktreeByBranch
        rw [List.map_cons, if_neg h0, List.find?_cons]
        have hcond : (w0.Branch == tmp && w0.Path != cur) = false := by
          have := hpre w0 (List.mem_cons_self _ _)
          simp [this]
        rw [hcond]
        exact ih (fun w hw => hpre w (List.mem_cons_of_mem _ hw)) hmem2
          ((List.nodup_cons.mp (by rwa [List.map_cons] at hnodup)).2)

theorem map_update_restore (wts : List Worktree) (wt : Worktree) (tmp bnew : String)
    (hmem : wt ∈ wts) (hnodup : (wts.map Worktree.Path).Nodup) (hb : wt.Branch = bnew) :
    (wts.map (fun w => if w.Path = wt.Path then { w with Branch := tmp } else w)).map
        (fun w => if w.Path = wt.Path then { w with Branch := bnew } else w) = wts := by
  rw [List.map_map]
  have hpt : ∀ w ∈ wts,
      ((fun w => if w.Path = wt.Path then { w with Branch := bnew } else w) ∘
        (fun w => if w.Path = wt.Path then { w with Branch := tmp } else w)) w = id w := by
    intro w hw
    simp only [Function.comp_apply, id_eq]
    by_cases hp : w.Path = wt.Path
    · have hww : w = wt := worktree_path_injective hnodup hw hmem hp
      subst hww
      rw [if_pos rfl]
      rw [if_pos (rfl : ({ w with Branch := tmp } : Worktree).Path = w.Path)]
      cases w with
      | mk P B => exact congrArg (Worktree.mk P) hb.symm
    · rw [if_neg hp]
      rw [if_neg hp]
  rw [List.map_congr_left hpt]
  exact List.map_id _

theorem filter_ne_append_singleton (l : List String) (tmp : String) (h : tmp ∉ l) :
    (l ++ [tmp]).filter (fun b => b ≠ tmp) = l := by
  rw [List.filter_append]
  have h1 : l.filter (fun b => b ≠ tmp) = l := by
    apply List.filter_eq_self.mpr
    intro a ha
    have hne : a ≠ tmp := fun heq => h (heq ▸ ha)
    simp [hne]
  have h2 : [tmp].filter (fun b => b ≠ tmp) = [] := by simp
  rw [h1, h2, List.append_nil]

theorem detach_success_eval (d : Detacher) (r : Repo) (branch : String) (opts : Options)
    (wt : Worktree)
    (hbe : BranchExists r branch = true)
    (hfindE : FindWorktreeForBranch r branch = .ok (some wt))
    (hclean : HasUncommittedChanges r wt.Path = false)
    (htmp : BranchExists r (d.TempBranchName branch) = false)
    (hdry : opts.DryRun = false)
    (hcreate : r.createFails (d.TempBranchName branch) wt.Path = false)
    (hco1 : r.checkoutFails wt.Path (d.TempBranchName branch) = false) :
    d.Detach r branch opts =
      ⟨.ok ⟨true, "Branch '" ++ branch ++ "' detached successfully", wt.Path,
          d.TempBranchName branch⟩,
        { r with branches := r.branches ++ [d.TempBranchName branch],
                 worktrees := r.worktrees.map (fun w =>
                   if w.Path = wt.Path then { w with Branch := d.TempBranchName branch } else w) },
        [.createBranch (d.TempBranchName branch) wt.Path,
          .checkout wt.Path (d.TempBranchName branch)]⟩ := by
  simp [Detacher.Detach, hbe, hfindE, hclean, htmp, hdry, CreateBranch, hcreate, Checkout, hco1]

theorem revert_success_eval (d : Detacher) (r : Repo) (branch : String) (opts : Options)
    (wt : Worktree)
    (hbe : BranchExists r branch = true)
    (htmp : BranchExists r (d.TempBranchName branch) = true)
    (hfindE : FindWorktreeForBranch r (d.TempBranchName branch) = .ok (some wt))
    (hclean : HasUncommittedChanges r wt.Path = false)
    (hdry : opts.DryRun = false)
    (hco : r.checkoutFails wt.Path branch = false)
    (hdel : r.deleteFails (d.TempBranchName branch) = false) :
    d.Revert r branch opts =
      ⟨.ok ⟨true, "Branch '" ++ branch ++ "' restored successfully", wt.Path,
          d.TempBranchName branch⟩,
        { r with branches := r.branches.filter (fun b2 => b2 ≠ d.TempBranchName branch),
                 worktrees := r.worktrees.map (fun w =>
                   if w.Path = wt.Path then { w with Branch := branch } else w) },
        [.checkout wt.Path branch, .deleteBranch (d.TempBranchName branch)]⟩ := by
  simp [Detacher.Revert, hbe, htmp, hfindE, hclean, hdry, Checkout, hco, DeleteBranch, hdel]

/-! ## Claim theorems -/

/-- C4: `ParseWorktreeList` is pure and total: every well-formed
porcelain-style text with N paragraph blocks yields exactly the N
records of those blocks in input order (a block without a
`branch refs/heads/` line yields an empty branch string); the result is
the same with or without the trailing blank line; empty input yields
the empty list; and the concrete scenario input parses as specified. -/
theorem parseWorktreeList_spec :
    (∀ bs : List Block, (∀ b ∈ bs, b.WellFormed) →
        ParseWorktreeList (joinLines (blocksLines bs)) = bs.map Block.toWorktree ∧
        ParseWorktreeList (joinLines (blocksLinesNoTrail bs)) = bs.map Block.toWorktree) ∧
    ParseWorktreeList "" = [] ∧
    ParseWorktreeList "worktree /r\nHEAD x\nbranch refs/heads/main\n\n" = [⟨"/r", "main"⟩] :=
  ⟨fun bs h => ⟨parseWorktreeList_render bs h, parseWorktreeList_renderNoTrail bs h⟩,
    by decide, by decide⟩

/-- Witness for C4: a concrete two-block text (second block `detached`,
no branch line), rendered with and without the trailing blank line. -/
theorem parseWorktreeList_spec_witness :
    (∀ b ∈ wBlocks, b.WellFormed) ∧
      (ParseWorktreeList (joinLines (blocksLines wBlocks)) = wBlocks.map Block.toWorktree ∧
        ParseWorktreeList (joinLines (blocksLinesNoTrail wBlocks)) =
          wBlocks.map Block.toWorktree) :=
  ⟨by decide, parseWorktreeList_spec.1 wBlocks (by decide)⟩

/-- C10: in `ParseWorktreeList`, a `worktree <path>` line met while a
record is open replaces the open record without appending it, so the
record begun by the earlier `worktree` line is dropped; in particular
`"worktree /a\nworktree /b"` parses to the single record `/b`. -/
theorem worktree_line_replaces_open_record :
    (∀ (p : String) (rest : List String) (w : Worktree) (acc : List Worktree),
        parseWorktreeLoop (("worktree " ++ p) :: rest) (some w) acc =
          parseWorktreeLoop rest (some ⟨p, ""⟩) acc) ∧
    ParseWorktreeList "worktree /a\nworktree /b" = [⟨"/b", ""⟩] :=
  ⟨fun p rest w acc => parseWorktreeLoop_worktree_line p rest (some w) acc, by decide⟩

/-- C7: `FindWorktreeByBranch` returns the first record in input order
whose branch equals the query and whose path differs from the excluded
path — never a record at the excluded path — and `none` exactly when no
such record exists. -/
theorem findWorktreeByBranch_spec :
    (∀ (wts : List Worktree) (br ex : String) (wt : Worktree),
        FindWorktreeByBranch wts br ex = some wt →
          wt.Branch = br ∧ wt.Path ≠ ex ∧
            ∃ pre post, wts = pre ++ wt :: post ∧ ∀ w ∈ pre, w.Branch = br → w.Path = ex) ∧
    (∀ (wts : List Worktree) (br ex : String),
        FindWorktreeByBranch wts br ex = none ↔ ∀ w ∈ wts, w.Branch = br → w.Path = ex) :=
  ⟨fun _ _ _ _ h => findWorktreeByBranch_eq_some h,
    fun _ _ _ => findWorktreeByBranch_eq_none⟩

/-- Witness for C7: the only record whose branch matches sits at the
excluded path, so the excluded-path case and the first-match case are
both exercised on concrete lists. -/
theorem findWorktreeByBranch_spec_witness :
    (FindWorktreeByBranch [⟨"/p", "m"⟩, ⟨"/q", "m"⟩] "m" "/p" = some ⟨"/q", "m"⟩) ∧
      ((⟨"/q", "m"⟩ : Worktree).Branch = "m" ∧ (⟨"/q", "m"⟩ : Worktree).Path ≠ "/p" ∧
        ∃ pre post, [(⟨"/p", "m"⟩ : Worktree), ⟨"/q", "m"⟩] = pre ++ (⟨"/q", "m"⟩ : Worktree) :: post ∧
          ∀ w ∈ pre, w.Branch = "m" → w.Path = "/p") ∧
      (FindWorktreeByBranch [(⟨"/p", "m"⟩ : Worktree)] "m" "/p" = none) :=
  ⟨by decide,
    findWorktreeByBranch_spec.1 [⟨"/p", "m"⟩, ⟨"/q", "m"⟩] "m" "/p" ⟨"/q", "m"⟩ (by decide),
    (findWorktreeByBranch_spec.2 [⟨"/p", "m"⟩] "m" "/p").mpr (by decide)⟩

/-- C9: the `Detacher` suffix is non-empty throughout: it starts as the
default `__wt_detach`; `SetSuffix ""` is a no-op; `SetSuffix` and
`LoadSuffixFromConfig` preserve non-emptiness, the latter replacing the
suffix only by a non-empty value read without error; consequently
`TempBranchName b` differs from `b` whenever the suffix is non-empty. -/
theorem suffix_nonempty_invariant :
    NewDetacher.suffix = "__wt_detach" ∧
    (∀ d : Detacher, d.SetSuffix "" = d) ∧
    (∀ (d : Detacher) (s : String), d.suffix ≠ "" → (d.SetSuffix s).suffix ≠ "") ∧
    (∀ (d : Detacher) (c : Option String), d.suffix ≠ "" →
        (d.LoadSuffixFromConfig c).suffix ≠ "") ∧
    (∀ (d : Detacher) (c : Option String),
        (d.LoadSuffixFromConfig c).suffix = d.suffix ∨
          (c = some (d.LoadSuffixFromConfig c).suffix ∧
            (d.LoadSuffixFromConfig c).suffix ≠ "")) ∧
    (∀ (d : Detacher) (b : String), d.suffix ≠ "" → d.TempBranchName b ≠ b) := by
  refine ⟨rfl, ?_, ?_, ?_, ?_, ?_⟩
  · intro d
    simp [Detacher.SetSuffix]
  · intro d s h
    unfold Detacher.SetSuffix
    by_cases hs : s = ""
    · simp [hs]
      exact h
    · simp [hs]
  · intro d c h
    unfold Detacher.LoadSuffixFromConfig
    cases c with
    | none => exact h
    | some s =>
        by_cases hs : s = ""
        · simp [hs]
          exact h
        · simp [hs]
  · intro d c
    unfold Detacher.LoadSuffixFromConfig
    cases c with
    | none => exact Or.inl rfl
    | some s =>
        by_cases hs : s = ""
        · simp [hs]
        · simp [hs]
  · intro d b h
    exact append_ne_of_ne_empty b d.suffix h

/-- Witness for C9: the default suffix is non-empty and the default temp
branch name differs from the branch name. -/
theorem suffix_nonempty_invariant_witness :
    NewDetacher.suffix ≠ "" ∧ NewDetacher.TempBranchName "b" ≠ "b" :=
  ⟨by decide, suffix_nonempty_invariant.2.2.2.2.2 NewDetacher "b" (by decide)⟩

/-- C5: every `Detach` invocation that ends before the create/checkout
step — branch missing, branch not checked out in any other worktree
(success whose message contains "not checked out"), uncommitted changes
without force, temp-branch conflict, or dry-run (success with message
exactly "dry-run") — issues no branch-creating, checkout, or
branch-deleting command and leaves the collaborator state untouched. -/
theorem detach_premutation_paths (d : Detacher) (r : Repo) (branch : String) (opts : Options) :
    (BranchExists r branch = false →
        (d.Detach r branch opts).trace = [] ∧ (d.Detach r branch opts).repo = r) ∧
    (BranchExists r branch = true → FindWorktreeForBranch r branch = .ok none →
        (d.Detach r branch opts).trace = [] ∧ (d.Detach r branch opts).repo = r ∧
        (d.Detach r branch opts).result =
          .ok ⟨true, ("Branch '" ++ branch ++ "' is ") ++ "not checked out" ++
            " in any other worktree", "", ""⟩) ∧
    (∀ wt : Worktree, BranchExists r branch = true →
        FindWorktreeForBranch r branch = .ok (some wt) →
        HasUncommittedChanges r wt.Path = true → opts.Force = false →
        (d.Detach r branch opts).trace = [] ∧ (d.Detach r branch opts).repo = r) ∧
    (∀ wt : Worktree, BranchExists r branch = true →
        FindWorktreeForBranch r branch = .ok (some wt) →
        (HasUncommittedChanges r wt.Path && !opts.Force) = false →
        BranchExists r (d.TempBranchName branch) = true →
        (d.Detach r branch opts).trace = [] ∧ (d.Detach r branch opts).repo = r) ∧
    (∀ wt : Worktree, BranchExists r branch = true →
        FindWorktreeForBranch r branch = .ok (some wt) →
        (HasUncommittedChanges r wt.Path && !opts.Force) = false →
        BranchExists r (d.TempBranchName branch) = false →
        opts.DryRun = true →
        (d.Detach r branch opts).trace = [] ∧ (d.Detach r branch opts).repo = r ∧
        (d.Detach r branch opts).result =
          .ok ⟨true, "dry-run", wt.Path, d.TempBranchName branch⟩) := by
  refine ⟨?_, ?_, ?_, ?_, ?_⟩
  · intro h
    simp [Detacher.Detach, h]
  · intro hbe hfind
    simp [Detacher.Detach, hbe, hfind, String.append_assoc]
  · intro wt hbe hfind hunc hforce
    simp [Detacher.Detach, hbe, hfind, hunc, hforce]
  · intro wt hbe hfind hunc htmp
    simp [Detacher.Detach, hbe, hfind, hunc, htmp]
  · intro wt hbe hfind hunc htmp hdry
    simp [Detacher.Detach, hbe, hfind, hunc, htmp, hdry]

/-- Witness for C5: a dry-run detach of `b` on the clean state mutates
nothing and reports `dry-run`. -/
theorem detach_premutation_paths_witness :
    (BranchExists rClean "b" = true ∧
      FindWorktreeForBranch rClean "b" = .ok (some ⟨"/wt", "b"⟩) ∧
      oDry.DryRun = true) ∧
    ((NewDetacher.Detach rClean "b" oDry).trace = [] ∧
      (NewDetacher.Detach rClean "b" oDry).repo = rClean ∧
      (NewDetacher.Detach rClean "b" oDry).result =
        .ok ⟨true, "dry-run", (⟨"/wt", "b"⟩ : Worktree).Path, NewDetacher.TempBranchName "b"⟩) :=
  ⟨⟨rfl, rfl, rfl⟩,
    (detach_premutation_paths NewDetacher rClean "b" oDry).2.2.2.2
      ⟨"/wt", "b"⟩ rfl rfl rfl rfl rfl⟩

/-- C6: whenever `Detach` creates the temp branch successfully but the
subsequent checkout fails, the engine issues a best-effort delete of the
just-created temp branch (its own outcome ignored: the conclusion does
not constrain `deleteFails`) and returns the checkout error, never
success. -/
theorem detach_rollback_on_checkout_failure (d : Detacher) (r : Repo) (branch : String)
    (opts : Options) (wt : Worktree)
    (hbe : BranchExists r branch = true)
    (hfind : FindWorktreeForBranch r branch = .ok (some wt))
    (hunc : (HasUncommittedChanges r wt.Path && !opts.Force) = false)
    (htmp : BranchExists r (d.TempBranchName branch) = false)
    (hdry : opts.DryRun = false)
    (hcreate : r.createFails (d.TempBranchName branch) wt.Path = false)
    (hco : r.checkoutFails wt.Path (d.TempBranchName branch) = true) :
    (d.Detach r branch opts).result =
      .error ("failed to checkout '" ++ d.TempBranchName branch ++ "' in '" ++ wt.Path ++ "'") ∧
    (d.Detach r branch opts).trace =
      [.createBranch (d.TempBranchName branch) wt.Path,
        .checkout wt.Path (d.TempBranchName branch),
        .deleteBranch (d.TempBranchName branch)] := by
  simp [Detacher.Detach, hbe, hfind, hunc, htmp, hdry, CreateBranch, hcreate, Checkout, hco]

/-- Witness for C6: checkout of the temp branch fails on `rCheckoutFail`;
the rollback delete is issued and the checkout error is returned. -/
theorem detach_rollback_on_checkout_failure_witness :
    (rCheckoutFail.checkoutFails "/wt" "b__wt_detach" = true) ∧
    ((NewDetacher.Detach rCheckoutFail "b" oDefault).result =
        .error ("failed to checkout '" ++ NewDetacher.TempBranchName "b" ++ "' in '" ++
          (⟨"/wt", "b"⟩ : Worktree).Path ++ "'") ∧
      (NewDetacher.Detach rCheckoutFail "b" oDefault).trace =
        [.createBranch (NewDetacher.TempBranchName "b") (⟨"/wt", "b"⟩ : Worktree).Path,
          .checkout (⟨"/wt", "b"⟩ : Worktree).Path (NewDetacher.TempBranchName "b"),
          .deleteBranch (NewDetacher.TempBranchName "b")]) :=
  ⟨rfl,
    detach_rollback_on_checkout_failure NewDetacher rCheckoutFail "b" oDefault
      ⟨"/wt", "b"⟩ rfl rfl rfl rfl rfl rfl rfl⟩

/-- C8: when the temp branch exists but the engine's lookup finds no
worktree holding it, `Revert` with dry-run reports the pending deletion
and mutates nothing; otherwise it issues exactly one mutating command —
deleting the temp branch — performs no checkout, leaves everything else
(in particular the worktrees) untouched, and on a successful delete
returns success carrying the temp branch name. -/
theorem revert_unattached_deletes_only (d : Detacher) (r : Repo) (branch : String)
    (opts : Options)
    (hbe : BranchExists r branch = true)
    (htmp : BranchExists r (d.TempBranchName branch) = true)
    (hfind : FindWorktreeForBranch r (d.TempBranchName branch) = .ok none) :
    (opts.DryRun = true →
        (d.Revert r branch opts).result =
          .ok ⟨true, "dry-run: would delete branch", "", d.TempBranchName branch⟩ ∧
        (d.Revert r branch opts).trace = [] ∧ (d.Revert r branch opts).repo = r) ∧
    (opts.DryRun = false →
        (d.Revert r branch opts).trace = [.deleteBranch (d.TempBranchName branch)] ∧
        (∀ c ∈ (d.Revert r branch opts).trace, ∀ p b2, c ≠ Cmd.checkout p b2) ∧
        (r.deleteFails (d.TempBranchName branch) = false →
            (d.Revert r branch opts).result =
              .ok ⟨true, "Deleted temporary branch '" ++ d.TempBranchName branch ++ "'", "",
                d.TempBranchName branch⟩ ∧
            (d.Revert r branch opts).repo =
              { r with branches :=
                  r.branches.filter (fun b2 => b2 ≠ d.TempBranchName branch) })) := by
  constructor
  · intro hdry
    simp [Detacher.Revert, hbe, htmp, hfind, hdry]
  · intro hdry
    by_cases hdel : r.deleteFails (d.TempBranchName branch) = true
    · simp [Detacher.Revert, hbe, htmp, hfind, hdry, DeleteBranch, hdel]
    · rw [Bool.not_eq_true] at hdel
      simp [Detacher.Revert, hbe, htmp, hfind, hdry, DeleteBranch, hdel]

/-- Witness for C8: reverting the orphaned temp branch on `rOrphan`
issues exactly the one delete command. -/
theorem revert_unattached_deletes_only_witness :
    (BranchExists rOrphan (NewDetacher.TempBranchName "b") = true ∧
      FindWorktreeForBranch rOrphan (NewDetacher.TempBranchName "b") = .ok none ∧
      oDefault.DryRun = false) ∧
    (NewDetacher.Revert rOrphan "b" oDefault).trace =
      [.deleteBranch (NewDetacher.TempBranchName "b")] :=
  ⟨⟨rfl, rfl, rfl⟩,
    ((revert_unattached_deletes_only NewDetacher rOrphan "b" oDefault rfl rfl rfl).2 rfl).1⟩

/-- Counterexample to C1 as stated: in `rTempHeld` the current worktree
(`/repo`, the only worktree) has the temp branch `b__wt_detach` checked
out, yet `Revert` does not find it — its lookup excludes the current
worktree's path — and takes the delete-only path (no checkout is
issued), treating the temp branch as unattached. -/
theorem revert_current_worktree_treated_unattached :
    rTempHeld.worktrees = [⟨"/repo", "b__wt_detach"⟩] ∧
    rTempHeld.currentPath = "/repo" ∧
    NewDetacher.TempBranchName "b" = "b__wt_detach" ∧
    BranchExists rTempHeld (NewDetacher.TempBranchName "b") = true ∧
    (NewDetacher.Revert rTempHeld "b" oDefault).trace = [.deleteBranch "b__wt_detach"] ∧
    (NewDetacher.Revert rTempHeld "b" oDefault).result =
      .ok ⟨true, "Deleted temporary branch 'b__wt_detach'", "", "b__wt_detach"⟩ :=
  ⟨rfl, rfl, rfl, rfl, rfl, rfl⟩

/-- C1 amended: `Revert` looks the temp branch up through
`FindWorktreeForBranch`, which excludes the current worktree's path.  A
worktree found by that lookup is therefore never the current one, and
`Revert` proceeds to check the original branch out there (first issued
command); when the lookup — which ignores the current worktree — finds
nothing, `Revert` never issues a checkout. -/
theorem revert_lookup_excludes_current (d : Detacher) (r : Repo) (branch : String)
    (opts : Options)
    (hbe : BranchExists r branch = true)
    (htmp : BranchExists r (d.TempBranchName branch) = true)
    (htop : r.toplevelFails = false) (hlist : r.listFails = false) :
    (∀ wt : Worktree,
        FindWorktreeByBranch r.worktrees (d.TempBranchName branch) r.currentPath = some wt →
          wt.Path ≠ r.currentPath ∧
          ((HasUncommittedChanges r wt.Path && !opts.Force) = false → opts.DryRun = false →
            (d.Revert r branch opts).trace.head? = some (.checkout wt.Path branch))) ∧
    (FindWorktreeByBranch r.worktrees (d.TempBranchName branch) r.currentPath = none →
        ∀ c ∈ (d.Revert r branch opts).trace, ∀ p b2, c ≠ Cmd.checkout p b2) := by
  constructor
  · intro wt hfind
    refine ⟨(findWorktreeByBranch_eq_some hfind).2.1, ?_⟩
    intro hunc hdry
    have hfindE : FindWorktreeForBranch r (d.TempBranchName branch) = .ok (some wt) := by
      simp [FindWorktreeForBranch, GetCurrentWorktreePath, ListWorktrees, htop, hlist, hfind]
    by_cases hco : r.checkoutFails wt.Path branch = true
    · simp [Detacher.Revert, hbe, htmp, hfindE, hunc, hdry, Checkout, hco]
    · rw [Bool.not_eq_true] at hco
      by_cases hdel : r.deleteFails (d.TempBranchName branch) = true
      · simp [Detacher.Revert, hbe, htmp, hfindE, hunc, hdry, Checkout, hco, DeleteBranch, hdel]
      · rw [Bool.not_eq_true] at hdel
        simp [Detacher.Revert, hbe, htmp, hfindE, hunc, hdry, Checkout, hco, DeleteBranch, hdel]
  · intro hfind c hc p b2
    have hfindE : FindWorktreeForBranch r (d.TempBranchName branch) = .ok none := by
      simp [FindWorktreeForBranch, GetCurrentWorktreePath, ListWorktrees, htop, hlist, hfind]
    by_cases hdry : opts.DryRun = true
    · simp [Detacher.Revert, hbe, htmp, hfindE, hdry] at hc
    · rw [Bool.not_eq_true] at hdry
      by_cases hdel : r.deleteFails (d.TempBranchName branch) = true
      · simp [Detacher.Revert, hbe, htmp, hfindE, hdry, DeleteBranch, hdel] at hc
        subst hc
        simp
      · rw [Bool.not_eq_true] at hdel
        simp [Detacher.Revert, hbe, htmp, hfindE, hdry, DeleteBranch, hdel] at hc
        subst hc
        simp

/-- Witness for the amended C1: with the temp branch held by the other
worktree `/wt`, the lookup finds it away from the current path and the
first command `Revert` issues is the checkout there. -/
theorem revert_lookup_excludes_current_witness :
    (FindWorktreeByBranch rDetached.worktrees (NewDetacher.TempBranchName "b")
        rDetached.currentPath = some ⟨"/wt", "b__wt_detach"⟩) ∧
    ((⟨"/wt", "b__wt_detach"⟩ : Worktree).Path ≠ rDetached.currentPath ∧
      (NewDetacher.Revert rDetached "b" oDefault).trace.head? =
        some (.checkout "/wt" "b")) :=
  ⟨rfl, by
    have h := (revert_lookup_excludes_current NewDetacher rDetached "b" oDefault
      rfl rfl rfl rfl).1 ⟨"/wt", "b__wt_detach"⟩ rfl
    exact ⟨h.1, h.2 rfl rfl⟩⟩

/-- C2, at the failing input: the modelled `formatUncommittedError`
(absent from the provided sources, reconstructed from the spec and the
repository's tests) itemizes the files when there are at most 10 and
shows only `N files or more` beyond 10 — but the `Detach` in the
provided `detach.go`, failing on uncommitted changes in `/wt` with
`file1.txt` modified, returns an error that carries the worktree path
and the force hint only, never the file list. -/
theorem uncommitted_error_code_bug :
    formatUncommittedError "/wt" ["file1.txt"] =
      "uncommitted changes found in worktree: /wt\n  file1.txt\n  Use --force to override" ∧
    formatUncommittedError "/wt" (List.replicate 11 "filea.txt") =
      "uncommitted changes found in worktree: /wt\n  11 files or more\n  Use --force to override" ∧
    containsSub (formatUncommittedError "/wt" (List.replicate 11 "filea.txt")).data
      "filea.txt".data = false ∧
    HasUncommittedChanges rDirty "/wt" = true ∧
    (NewDetacher.Detach rDirty "b" oDefault).result =
      .error "uncommitted changes found in worktree: /wt\n  Use --force to override" ∧
    containsSub "uncommitted changes found in worktree: /wt\n  Use --force to override".data
      "file1.txt".data = false :=
  ⟨by decide, by decide, by decide, rfl, rfl, by decide⟩

/-- C3: round trip.  For a branch that exists, is checked out (per the
engine's lookup) in another clean worktree, with no pre-existing temp
branch (neither as a ref nor checked out anywhere), worktree paths
unique, the collaborator queries healthy and every command succeeding:
`Detach` succeeds, the immediately following `Revert` succeeds, the
worktree list is back to its original state (the worktree is on its
original branch again), and the temp branch no longer exists. -/
theorem detach_revert_round_trip (d : Detacher) (r : Repo) (branch : String) (opts : Options)
    (wt : Worktree)
    (hbe : BranchExists r branch = true)
    (hfind : FindWorktreeByBranch r.worktrees branch r.currentPath = some wt)
    (hclean : HasUncommittedChanges r wt.Path = false)
    (htmp : BranchExists r (d.TempBranchName branch) = false)
    (hnotmpwt : ∀ w ∈ r.worktrees, w.Branch ≠ d.TempBranchName branch)
    (hnodup : (r.worktrees.map Worktree.Path).Nodup)
    (htop : r.toplevelFails = false) (hlist : r.listFails = false)
    (hdry : opts.DryRun = false)
    (hcreate : r.createFails (d.TempBranchName branch) wt.Path = false)
    (hco1 : r.checkoutFails wt.Path (d.TempBranchName branch) = false)
    (hco2 : r.checkoutFails wt.Path branch = false)
    (hdel : r.deleteFails (d.TempBranchName branch) = false) :
    (d.Detach r branch opts).result =
      .ok ⟨true, "Branch '" ++ branch ++ "' detached successfully", wt.Path,
        d.TempBranchName branch⟩ ∧
    (d.Revert (d.Detach r branch opts).repo branch opts).result =
      .ok ⟨true, "Branch '" ++ branch ++ "' restored successfully", wt.Path,
        d.TempBranchName branch⟩ ∧
    (d.Revert (d.Detach r branch opts).repo branch opts).repo.worktrees = r.worktrees ∧
    (d.Revert (d.Detach r branch opts).repo branch opts).repo.branches = r.branches ∧
    BranchExists (d.Revert (d.Detach r branch opts).repo branch opts).repo
      (d.TempBranchName branch) = false := by
  have hwb : wt.Branch = branch := (findWorktreeByBranch_eq_some hfind).1
  have hwex : wt.Path ≠ r.currentPath := (findWorktreeByBranch_eq_some hfind).2.1
  have hmem : wt ∈ r.worktrees := mem_of_findWorktreeByBranch_eq_some hfind
  have htmpmem : d.TempBranchName branch ∉ r.branches := by
    intro hm
    rw [branchExists_iff.mpr hm] at htmp
    exact Bool.true_eq_false.mp htmp
  have hfindE : FindWorktreeForBranch r branch = .ok (some wt) := by
    simp [FindWorktreeForBranch, GetCurrentWorktreePath, ListWorktrees, htop, hlist, hfind]
  have hD := detach_success_eval d r branch opts wt hbe hfindE hclean htmp hdry hcreate hco1
  have hrepoD : (d.Detach r branch opts).repo =
      { r with branches := r.branches ++ [d.TempBranchName branch],
               worktrees := r.worktrees.map (fun w =>
                 if w.Path = wt.Path then { w with Branch := d.TempBranchName branch } else w) } := by
    rw [hD]
  have hbe2 : BranchExists
      { r with branches := r.branches ++ [d.TempBranchName branch],
               worktrees := r.worktrees.map (fun w =>
                 if w.Path = wt.Path then { w with Branch := d.TempBranchName branch } else w) }
      branch = true :=
    branchExists_iff.mpr (List.mem_append_left _ (branchExists_iff.mp hbe))
  have htmp2 : BranchExists
      { r with branches := r.branches ++ [d.TempBranchName branch],
               worktrees := r.worktrees.map (fun w =>
                 if w.Path = wt.Path then { w with Branch := d.TempBranchName branch } else w) }
      (d.TempBranchName branch) = true :=
    branchExists_iff.mpr (List.mem_append_right _ (List.mem_singleton.mpr rfl))
  have hfind2 : FindWorktreeByBranch
      (r.worktrees.map (fun w =>
        if w.Path = wt.Path then { w with Branch := d.TempBranchName branch } else w))
      (d.TempBranchName branch) r.currentPath =
      some { wt with Branch := d.TempBranchName branch } :=
    findWorktreeByBranch_after_update hnotmpwt hmem hnodup hwex
  have hfindE2 : FindWorktreeForBranch
      { r with branches := r.branches ++ [d.TempBranchName branch],
               worktrees := r.worktrees.map (fun w =>
                 if w.Path = wt.Path then { w with Branch := d.TempBranchName branch } else w) }
      (d.TempBranchName branch) = .ok (some { wt with Branch := d.TempBranchName branch }) := by
    simp only [FindWorktreeForBranch, GetCurrentWorktreePath, ListWorktrees, htop, hlist,
      Bool.false_eq_true, if_false, hfind2]
  have hR := revert_success_eval d
    { r with branches := r.branches ++ [d.TempBranchName branch],
             worktrees := r.worktrees.map (fun w =>
               if w.Path = wt.Path then { w with Branch := d.TempBranchName branch } else w) }
    branch opts { wt with Branch := d.TempBranchName branch }
    hbe2 htmp2 hfindE2 hclean hdry hco2 hdel
  have hbranchesR : (d.Revert (d.Detach r branch opts).repo branch opts).repo.branches =
      r.branches := by
    rw [hrepoD, hR]
    exact filter_ne_append_singleton r.branches (d.TempBranchName branch) htmpmem
  refine ⟨?_, ?_, ?_, hbranchesR, ?_⟩
  · rw [hD]
  · rw [hrepoD, hR]
  · rw [hrepoD, hR]
    exact map_update_restore r.worktrees wt (d.TempBranchName branch) branch hmem hnodup hwb
  · show (d.Revert (d.Detach r branch opts).repo branch opts).repo.branches.contains
        (d.TempBranchName branch) = false
    rw [hbranchesR]
    exact htmp

/-- Witness for C3: the concrete clean state round-trips. -/
theorem detach_revert_round_trip_witness :
    (BranchExists rClean "b" = true ∧
      FindWorktreeByBranch rClean.worktrees "b" rClean.currentPath = some ⟨"/wt", "b"⟩ ∧
      HasUncommittedChanges rClean (⟨"/wt", "b"⟩ : Worktree).Path = false ∧
      BranchExists rClean (NewDetacher.TempBranchName "b") = false ∧
      (rClean.worktrees.map Worktree.Path).Nodup) ∧
    ((NewDetacher.Detach rClean "b" oDefault).result =
        .ok ⟨true, "Branch '" ++ "b" ++ "' detached successfully", (⟨"/wt", "b"⟩ : Worktree).Path,
          NewDetacher.TempBranchName "b"⟩ ∧
      (NewDetacher.Revert (NewDetacher.Detach rClean "b" oDefault).repo "b" oDefault).result =
        .ok ⟨true, "Branch '" ++ "b" ++ "' restored successfully", (⟨"/wt", "b"⟩ : Worktree).Path,
          NewDetacher.TempBranchName "b"⟩ ∧
      (NewDetacher.Revert (NewDetacher.Detach rClean "b" oDefault).repo "b"
          oDefault).repo.worktrees = rClean.worktrees ∧
      (NewDetacher.Revert (NewDetacher.Detach rClean "b" oDefault).repo "b"
          oDefault).repo.branches = rClean.branches ∧
      BranchExists (NewDetacher.Revert (NewDetacher.Detach rClean "b" oDefault).repo "b"
          oDefault).repo (NewDetacher.TempBranchName "b") = false) :=
  ⟨⟨rfl, rfl, rfl, rfl, by decide⟩,
    detach_revert_round_trip NewDetacher rClean "b" oDefault ⟨"/wt", "b"⟩
      rfl rfl rfl rfl (by decide) (by decide) rfl rfl rfl rfl rfl rfl rfl⟩

end WtDetach

section ParserSmokeTests

open WtDetach

example : ParseWorktreeList "" = [] := by decide

example :
    ParseWorktreeList "worktree /r\nHEAD x\nbranch refs/heads/main\n\n" =
      [⟨"/r", "main"⟩] := by decide

example : ParseWorktreeList "worktree /a\nworktree /b" = [⟨"/b", ""⟩] := by decide

example :
    ParseWorktreeList "worktree /a\nHEAD h\nbranch refs/heads/m\n\nworktree /b\nHEAD g\ndetached\n" =
      [⟨"/a", "m"⟩, ⟨"/b", ""⟩] := by decide

example :
    FindWorktreeByBranch [⟨"/a", "m"⟩, ⟨"/b", "m"⟩] "m" "/a" = some ⟨"/b", "m"⟩ := by decide

end ParserSmokeTests
